import Mathlib

/-!
Verification development for the gourmeet-mcp tool server
(src/pages/api/mcp/[[...path]].ts).

The TypeScript source is shallowly embedded: the external Supabase store is
modelled as an in-memory `Store` holding the four tables plus, per table, an
optional injected failure message (a `some msg` makes every fetch against
that table report `msg`, mirroring the `error` field of a Supabase reply).
Row types mirror the column lists selected by the source.  JavaScript
numbers that reach `clampLimit` are modelled by `JsNum` (NaN, the two
infinities, or a finite rational); `Math.floor` is the rational floor.
Textual tool output is kept structured: a content block is either an
`Error: `-prefixed message (`Content.errText m` stands for the block
`{type: "text", text: "Error: " ++ m}`) or a pretty-printed JSON payload
(`Content.payload j` stands for `{type: "text", text: jsonText j}` where
`j` is the object handed to `jsonText` before stringification).
A handler that lets an exception escape (an uncaught `throw`) is modelled
by `Except.error`.
-/

namespace Gourmeet

/-- First-occurrence de-duplication worker: `seen` holds the values already
emitted.  `uniq` below mirrors the source's
`const uniq = arr => Array.from(new Set(arr))`, which keeps the first
occurrence of each value in encounter order. -/
def uniqAux [DecidableEq α] : List α → List α → List α
  | _, [] => []
  | seen, a :: l => if a ∈ seen then uniqAux seen l else a :: uniqAux (a :: seen) l

/-- Source `uniq`: de-duplicate keeping first occurrences, preserving order. -/
def uniq [DecidableEq α] (l : List α) : List α := uniqAux [] l

/-- Character-list version of `String.startsWith`, used to build the
substring test below out of structural recursion. -/
def leadsWith : List Char → List Char → Bool
  | [], _ => true
  | _ :: _, [] => false
  | c :: n, d :: h => c == d && leadsWith n h

/-- Substring occurrence test on character lists. -/
def occursIn (n : List Char) : List Char → Bool
  | [] => n.isEmpty
  | c :: h => leadsWith n (c :: h) || occursIn n h

/-- Model of the PostgREST filter `ilike("col", "%query%")`: a
case-insensitive substring match; a NULL column never matches. -/
def likeContains (q : String) (field : Option String) : Bool :=
  match field with
  | none => false
  | some s => occursIn (q.toList.map Char.toLower) (s.toList.map Char.toLower)

/-- A JavaScript number as seen by `clampLimit`: NaN, an infinity, or a
finite value (modelled as a rational; the source only compares against 0
and 20 and floors, which are exact on the doubles involved). -/
inductive JsNum where
  | nan
  | inf
  | negInf
  | fin (q : ℚ)
deriving DecidableEq

/-- Source `clampLimit`: `Number.isFinite(v)` fails on an absent input
(`Number(undefined)` is NaN), on NaN and on the infinities, yielding the
default 10; a finite value `≤ 0` also yields 10; otherwise the value is
floored and capped at `max = 20`. -/
def clampLimit (n : Option JsNum) : Int :=
  match n with
  | some (JsNum.fin q) => if q ≤ 0 then 10 else min ⌊q⌋ 20
  | _ => 10

/-- The clamped limit as the row-count bound handed to the store. -/
def limOf (limit : Option JsNum) : Nat := (clampLimit limit).toNat

/-- Row of the `profiles` table, columns as selected by the source
(`id,display_name,avatar_url,updated_at,username,username_ci,`
`username_updated_at,bio,is_public,header_image_url`). -/
structure ProfileRow where
  id : String
  display_name : Option String
  avatar_url : Option String
  updated_at : Option String
  username : Option String
  username_ci : Option String
  username_updated_at : Option String
  bio : Option String
  is_public : Bool
  header_image_url : Option String
deriving DecidableEq

/-- Row of the `places` table, columns as selected by the source. -/
structure PlaceRow where
  place_id : String
  name : Option String
  address : Option String
  lat : Option ℚ
  lng : Option ℚ
  photo_url : Option String
  updated_at : Option String
  place_types : Option (List String)
  primary_type : Option String
  types_fetched_at : Option String
  primary_genre : Option String
  genre_tags : List String
  genre_source : Option String
  genre_confidence : Option ℚ
  genre_updated_at : String
deriving DecidableEq

/-- Row of the `posts` table, columns as selected by the source.  The
`image_variants` column is typed `any` in the source; it is carried here as
an opaque optional string, since no code inspects it. -/
structure PostRow where
  id : String
  user_id : String
  content : Option String
  created_at : Option String
  image_urls : Option (List String)
  place_name : Option String
  place_address : Option String
  place_id : Option String
  image_variants : Option String
  recommend_score : Option ℚ
  price_yen : Option ℚ
  price_range : Option String
deriving DecidableEq

/-- Row of the `follows` table, columns as selected by the source
(`follower_id,followee_id,created_at,status,request_read`). -/
structure FollowRow where
  follower_id : String
  followee_id : String
  created_at : Option String
  status : String
  request_read : Bool
deriving DecidableEq

/-- Structured JSON value: the object handed to the source's `jsonText`
(`JSON.stringify(obj, null, 2)`) before stringification. -/
inductive Jv where
  | jnull
  | jstr (s : String)
  | jnum (q : ℚ)
  | jbool (b : Bool)
  | jarr (xs : List Jv)
  | jobj (fields : List (String × Jv))

/-- Encode an optional value, `null` when absent (mirrors how
`JSON.stringify` renders a `null` field). -/
def jopt (f : α → Jv) : Option α → Jv
  | none => Jv.jnull
  | some a => f a

/-- Optional string field. -/
def jstrO : Option String → Jv := jopt Jv.jstr

/-- Optional numeric field. -/
def jnumO : Option ℚ → Jv := jopt Jv.jnum

/-- String-array field. -/
def jstrArr (l : List String) : Jv := Jv.jarr (l.map Jv.jstr)

/-- Optional string-array field. -/
def jstrArrO : Option (List String) → Jv := jopt jstrArr

/-- JSON image of a full profile row, field order as selected. -/
def profileJ (r : ProfileRow) : Jv :=
  Jv.jobj [("id", Jv.jstr r.id), ("display_name", jstrO r.display_name),
    ("avatar_url", jstrO r.avatar_url), ("updated_at", jstrO r.updated_at),
    ("username", jstrO r.username), ("username_ci", jstrO r.username_ci),
    ("username_updated_at", jstrO r.username_updated_at), ("bio", jstrO r.bio),
    ("is_public", Jv.jbool r.is_public),
    ("header_image_url", jstrO r.header_image_url)]

/-- JSON image of the 6-column profile projection used by profiles.search
and by the follower/followee enrichment
(`id,username,display_name,avatar_url,is_public,updated_at`). -/
def searchProfileJ (r : ProfileRow) : Jv :=
  Jv.jobj [("id", Jv.jstr r.id), ("username", jstrO r.username),
    ("display_name", jstrO r.display_name), ("avatar_url", jstrO r.avatar_url),
    ("is_public", Jv.jbool r.is_public), ("updated_at", jstrO r.updated_at)]

/-- JSON image of a full place row, field order as selected. -/
def placeJ (r : PlaceRow) : Jv :=
  Jv.jobj [("place_id", Jv.jstr r.place_id), ("name", jstrO r.name),
    ("address", jstrO r.address), ("lat", jnumO r.lat), ("lng", jnumO r.lng),
    ("photo_url", jstrO r.photo_url), ("updated_at", jstrO r.updated_at),
    ("place_types", jstrArrO r.place_types),
    ("primary_type", jstrO r.primary_type),
    ("types_fetched_at", jstrO r.types_fetched_at),
    ("primary_genre", jstrO r.primary_genre),
    ("genre_tags", jstrArr r.genre_tags),
    ("genre_source", jstrO r.genre_source),
    ("genre_confidence", jnumO r.genre_confidence),
    ("genre_updated_at", Jv.jstr r.genre_updated_at)]

/-- JSON image of the 10-column place projection used by places.search. -/
def placeSearchJ (r : PlaceRow) : Jv :=
  Jv.jobj [("place_id", Jv.jstr r.place_id), ("name", jstrO r.name),
    ("address", jstrO r.address), ("lat", jnumO r.lat), ("lng", jnumO r.lng),
    ("photo_url", jstrO r.photo_url), ("primary_genre", jstrO r.primary_genre),
    ("genre_tags", jstrArr r.genre_tags), ("primary_type", jstrO r.primary_type),
    ("updated_at", jstrO r.updated_at)]

/-- JSON fields of a post row, in selected order; shared between the bare
and the enriched encodings. -/
def postFieldsJ (p : PostRow) : List (String × Jv) :=
  [("id", Jv.jstr p.id), ("user_id", Jv.jstr p.user_id),
    ("content", jstrO p.content), ("created_at", jstrO p.created_at),
    ("image_urls", jstrArrO p.image_urls), ("place_name", jstrO p.place_name),
    ("place_address", jstrO p.place_address), ("place_id", jstrO p.place_id),
    ("image_variants", jstrO p.image_variants),
    ("recommend_score", jnumO p.recommend_score),
    ("price_yen", jnumO p.price_yen), ("price_range", jstrO p.price_range)]

/-- One content block of a tool response.  `errText m` stands for the block
`{type: "text", text: "Error: " ++ m}` that every handler builds from a
store failure message `m`; `payload j` stands for
`{type: "text", text: jsonText j}`. -/
inductive Content where
  | errText (msg : String)
  | payload (j : Jv)

/-- A tool response envelope: the `content` list returned by a handler. -/
structure ToolResponse where
  content : List Content

/-- Outcome of running a handler: `Except.ok` is a returned response,
`Except.error m` is an exception escaping the handler (an uncaught
`throw` of a store error with message `m`). -/
abbrev HResult := Except String ToolResponse

/-- Handler result carrying a single error content block, as built by
`return content: [text, "Error: " ++ msg]` in the source. -/
def errResp (m : String) : HResult := Except.ok ⟨[Content.errText m]⟩

/-- Handler result carrying a single JSON payload block. -/
def okPayload (j : Jv) : HResult := Except.ok ⟨[Content.payload j]⟩

/-- The external store: the four tables plus, per table, an optional
injected failure.  When `xFail = some m`, every fetch against table `x`
reports the failure `m` (the `error` field of a Supabase reply); when it is
`none`, fetches succeed and answer from the in-memory table. -/
structure Store where
  profiles : List ProfileRow
  places : List PlaceRow
  posts : List PostRow
  follows : List FollowRow
  profilesFail : Option String
  placesFail : Option String
  postsFail : Option String
  followsFail : Option String

/-- Ordering of `created_at` values under
`order("created_at", ascending: false)`: later timestamps first, with NULL
sorting first (Postgres DESC defaults to NULLS FIRST).  ISO-8601 strings
compare chronologically as strings. -/
def tsLe : Option String → Option String → Prop
  | none, _ => True
  | some _, none => False
  | some x, some y => y ≤ x

instance : DecidableRel tsLe := fun a b =>
  match a, b with
  | none, _ => isTrue trivial
  | some _, none => isFalse (fun h => h)
  | some x, some y => inferInstanceAs (Decidable (y ≤ x))

instance : IsTotal (Option String) tsLe :=
  ⟨by
    intro a b
    cases a with
    | none => exact Or.inl trivial
    | some x =>
      cases b with
      | none => exact Or.inr trivial
      | some y => exact (le_total y x).imp (fun h => h) (fun h => h)⟩

instance : IsTrans (Option String) tsLe :=
  ⟨by
    intro a b c hab hbc
    cases a with
    | none => exact trivial
    | some x =>
      cases b with
      | none => exact hab.elim
      | some y =>
        cases c with
        | none => exact hbc
        | some z => exact le_trans (α := String) hbc hab⟩

/-- Descending creation-time order on posts. -/
def postDesc (a b : PostRow) : Prop := tsLe a.created_at b.created_at

instance : DecidableRel postDesc := fun a b =>
  inferInstanceAs (Decidable (tsLe a.created_at b.created_at))

instance : IsTotal PostRow postDesc :=
  ⟨fun a b => IsTotal.total (r := tsLe) a.created_at b.created_at⟩

instance : IsTrans PostRow postDesc :=
  ⟨fun a b c hab hbc =>
    IsTrans.trans (r := tsLe) a.created_at b.created_at c.created_at hab hbc⟩

/-- Descending creation-time order on follow edges. -/
def followDesc (a b : FollowRow) : Prop := tsLe a.created_at b.created_at

instance : DecidableRel followDesc := fun a b =>
  inferInstanceAs (Decidable (tsLe a.created_at b.created_at))

instance : IsTotal FollowRow followDesc :=
  ⟨fun a b => IsTotal.total (r := tsLe) a.created_at b.created_at⟩

instance : IsTrans FollowRow followDesc :=
  ⟨fun a b c hab hbc =>
    IsTrans.trans (r := tsLe) a.created_at b.created_at c.created_at hab hbc⟩

/-- A store fetch issued by the enrichment engine or by profiles.search,
recorded for counting (the batching invariant). -/
inductive Fetch where
  | profilesByIds (ids : List String)
  | placesByIds (ids : List String)
  | profilesLikeUsername (q : String) (lim : Nat)
  | profilesLikeDisplay (q : String) (lim : Nat)
deriving DecidableEq

/-- Recognizer for profile batch fetches. -/
def Fetch.isProfilesByIds : Fetch → Bool
  | Fetch.profilesByIds _ => true
  | _ => false

/-- Recognizer for place batch fetches. -/
def Fetch.isPlacesByIds : Fetch → Bool
  | Fetch.placesByIds _ => true
  | _ => false

/-- Batched fetch `from("profiles").select(...).in("id", ids)`. -/
def fetchProfilesByIds (s : Store) (ids : List String) :
    Except String (List ProfileRow) :=
  match s.profilesFail with
  | some m => Except.error m
  | none => Except.ok (s.profiles.filter (fun r => r.id ∈ ids))

/-- Batched fetch `from("places").select(...).in("place_id", ids)`. -/
def fetchPlacesByIds (s : Store) (ids : List String) :
    Except String (List PlaceRow) :=
  match s.placesFail with
  | some m => Except.error m
  | none => Except.ok (s.places.filter (fun r => r.place_id ∈ ids))

/-- One step of building a JavaScript object keyed by `key r`
(`byId[key(r)] = r`): a later row with the same key overwrites. -/
def lookStep (key : α → String) (k : String) (acc : Option α) (r : α) : Option α :=
  if key r = k then some r else acc

/-- Reading `byId[k] ?? null` from the object built row by row via
`byId[key(r)] = r`: the last row whose key is `k`, if any. -/
def lookupLastBy (key : α → String) (rows : List α) (k : String) : Option α :=
  rows.foldl (lookStep key k) none

/-- A post with its attached enrichment fields: the spread `{...p, author,
place}` built by `enrichPosts`.  `post` carries every original field
unchanged. -/
structure EnrichedPost where
  post : PostRow
  author : Option ProfileRow
  place : Option PlaceRow
deriving DecidableEq

/-- The de-duplicated author keys of a batch:
`uniq(posts.map(p => p.user_id).filter(Boolean))` (JavaScript truthiness
drops the empty string as well as null; `user_id` is non-null). -/
def postUserIds (posts : List PostRow) : List String :=
  uniq ((posts.map (fun p => p.user_id)).filter (fun v => v ≠ ""))

/-- The de-duplicated place keys of a batch:
`uniq(posts.map(p => p.place_id).filter(Boolean))` (drops null and the
empty string). -/
def postPlaceIds (posts : List PostRow) : List String :=
  uniq ((posts.filterMap (fun p => p.place_id)).filter (fun v => v ≠ ""))

/-- Attach `author` and `place` to one post from the fetched row sets:
`author: profilesById[p.user_id] ?? null` and
`place: p.place_id ? (placesById[p.place_id] ?? null) : null`. -/
def enrichAttach (profRows : List ProfileRow) (placeRows : List PlaceRow)
    (p : PostRow) : EnrichedPost :=
  ⟨p, lookupLastBy (fun r => r.id) profRows p.user_id,
    match p.place_id with
    | none => none
    | some pid =>
      if pid = "" then none else lookupLastBy (fun r => r.place_id) placeRows pid⟩

/-- Source `enrichPosts`, with the issued batch fetches recorded.  Each
foreign type is fetched at most once, only when its key set is non-empty;
a failing profiles fetch is thrown before the places fetch is issued
(`if (error) throw error`). -/
def enrichPostsT (s : Store) (posts : List PostRow) :
    Except String (List EnrichedPost) × List Fetch :=
  let userIds := postUserIds posts
  let placeIds := postPlaceIds posts
  if userIds.isEmpty then
    if placeIds.isEmpty then
      (Except.ok (posts.map (enrichAttach [] [])), [])
    else
      match fetchPlacesByIds s placeIds with
      | Except.error m => (Except.error m, [Fetch.placesByIds placeIds])
      | Except.ok placeRows =>
        (Except.ok (posts.map (enrichAttach [] placeRows)),
          [Fetch.placesByIds placeIds])
  else
    match fetchProfilesByIds s userIds with
    | Except.error m => (Except.error m, [Fetch.profilesByIds userIds])
    | Except.ok profRows =>
      if placeIds.isEmpty then
        (Except.ok (posts.map (enrichAttach profRows [])),
          [Fetch.profilesByIds userIds])
      else
        match fetchPlacesByIds s placeIds with
        | Except.error m =>
          (Except.error m, [Fetch.profilesByIds userIds, Fetch.placesByIds placeIds])
        | Except.ok placeRows =>
          (Except.ok (posts.map (enrichAttach profRows placeRows)),
            [Fetch.profilesByIds userIds, Fetch.placesByIds placeIds])

/-- Source `enrichPosts`, result only. -/
def enrichPosts (s : Store) (posts : List PostRow) :
    Except String (List EnrichedPost) :=
  (enrichPostsT s posts).1

/-- PostgREST `.maybeSingle()`: `ok none` on zero rows, the row on exactly
one, an error on several. -/
def maybeSingle : List α → Except String (Option α)
  | [] => Except.ok none
  | [r] => Except.ok (some r)
  | _ => Except.error "JSON object requested, multiple (or no) rows returned"

/-- JavaScript truthiness of an optional string parameter: absent and the
empty string are falsy. -/
def truthy : Option String → Bool
  | none => false
  | some v => v ≠ ""

/-- Handler of the places.get tool: single-row fetch by `place_id` via
`maybeSingle`, store failures converted to an error content block, absence
reported as `data: null`. -/
def placesGet (s : Store) (place_id : String) : HResult :=
  match s.placesFail with
  | some m => errResp m
  | none =>
    match maybeSingle (s.places.filter (fun r => r.place_id = place_id)) with
    | Except.error m => errResp m
    | Except.ok d =>
      okPayload (Jv.jobj [("place_id", Jv.jstr place_id), ("data", jopt placeJ d)])

/-- Handler of the places.search tool: case-insensitive partial match on
`name`, capped at the clamped limit. -/
def placesSearch (s : Store) (query : String) (limit : Option JsNum) : HResult :=
  match s.placesFail with
  | some m => errResp m
  | none =>
    let rows := (s.places.filter (fun r => likeContains query r.name)).take (limOf limit)
    okPayload (Jv.jobj [("query", Jv.jstr query),
      ("limit", Jv.jnum (clampLimit limit)),
      ("data", Jv.jarr (rows.map placeSearchJ))])

/-- The single-row lookup performed by profiles.get once its guard has
passed: by `id` when `id` is truthy, else by `username`. -/
def profilesGetData (s : Store) (idIn usernameIn : Option String) :
    Except String (Option ProfileRow) :=
  match s.profilesFail with
  | some m => Except.error m
  | none =>
    let rows :=
      if truthy idIn then s.profiles.filter (fun r => some r.id = idIn)
      else s.profiles.filter (fun r => r.username = usernameIn)
    maybeSingle rows

/-- Handler of the profiles.get tool.  The guard
`if (!id && !username) return "Error: provide id or username"` runs inside
the handler; a truthy `id` takes precedence over `username`. -/
def profilesGet (s : Store) (idIn usernameIn : Option String) : HResult :=
  if truthy idIn || truthy usernameIn then
    match profilesGetData s idIn usernameIn with
    | Except.error m => errResp m
    | Except.ok d =>
      okPayload (Jv.jobj [("id", jstrO idIn), ("username", jstrO usernameIn),
        ("data", jopt profileJ d)])
  else
    errResp "provide id or username"

/-- The schema of profiles.get as declared in the source: both `id` and
`username` are optional properties, with no `required` list, so every
(id?, username?) combination passes schema validation. -/
def profilesGetSchemaOk (idIn usernameIn : Option String) : Bool :=
  match idIn, usernameIn with
  | _, _ => true

/-- Outcome of dispatching a call: rejected by schema validation before the
handler runs, or the handler's own result. -/
inductive Dispatched where
  | rejected (msg : String)
  | ran (r : HResult)

/-- Dispatch of profiles.get: schema validation gates the handler. -/
def dispatchProfilesGet (s : Store) (idIn usernameIn : Option String) : Dispatched :=
  if profilesGetSchemaOk idIn usernameIn then
    Dispatched.ran (profilesGet s idIn usernameIn)
  else
    Dispatched.rejected "input does not satisfy the declared schema"

/-- The merge step of profiles.search:
`Object.values(merged.reduce((acc, row) => {acc[row.id] = row; return acc}, {}))`.
JavaScript object keys (the ids are UUID strings, not integer-like) keep
first-insertion order while a later assignment overwrites the value, so the
result lists, in first-occurrence order of the ids, the last row seen for
each id. -/
def dedupJS (rows : List ProfileRow) : List ProfileRow :=
  (uniq (rows.map (fun r => r.id))).filterMap (lookupLastBy (fun r => r.id) rows)

/-- First fetch of profiles.search: `ilike("username", "%query%")`, capped
at the clamped limit (no explicit order, so table order). -/
def profilesSearchByU (s : Store) (query : String) (lim : Nat) : List ProfileRow :=
  (s.profiles.filter (fun r => likeContains query r.username)).take lim

/-- Second fetch of profiles.search: `ilike("display_name", "%query%")`. -/
def profilesSearchByD (s : Store) (query : String) (lim : Nat) : List ProfileRow :=
  (s.profiles.filter (fun r => likeContains query r.display_name)).take lim

/-- The row list returned by profiles.search: concatenate the username
matches then the display-name matches, de-duplicate by id, truncate with
`.slice(0, lim)`. -/
def profilesSearchRows (s : Store) (query : String) (limit : Option JsNum) :
    List ProfileRow :=
  (dedupJS (profilesSearchByU s query (limOf limit)
      ++ profilesSearchByD s query (limOf limit))).take (limOf limit)

/-- Handler of the profiles.search tool, with its two issued fetches
recorded.  Both fetches are awaited before either error check, so both are
always issued; they hit the same table, hence fail together in this model
(first failing check wins in the source, with the same message). -/
def profilesSearchT (s : Store) (query : String) (limit : Option JsNum) :
    HResult × List Fetch :=
  let lim := limOf limit
  let trace := [Fetch.profilesLikeUsername query lim, Fetch.profilesLikeDisplay query lim]
  match s.profilesFail with
  | some m => (errResp m, trace)
  | none =>
    (okPayload (Jv.jobj [("query", Jv.jstr query),
      ("limit", Jv.jnum (clampLimit limit)),
      ("data", Jv.jarr ((profilesSearchRows s query limit).map searchProfileJ))]),
      trace)

/-- Handler of the profiles.search tool, response only. -/
def profilesSearch (s : Store) (query : String) (limit : Option JsNum) : HResult :=
  (profilesSearchT s query limit).1

/-- Rows of a posts query `order("created_at", ascending: false)`: a sort
by descending creation time (NULLS FIRST), via a deterministic stable
sort. -/
def postsSortedDesc (posts : List PostRow) : List PostRow :=
  List.insertionSort postDesc posts

/-- A posts fetch with a filter, descending creation-time order and a row
limit, honouring an injected posts-table failure. -/
def fetchPostsWhere (s : Store) (keep : PostRow → Bool) (lim : Nat) :
    Except String (List PostRow) :=
  match s.postsFail with
  | some m => Except.error m
  | none => Except.ok ((postsSortedDesc (s.posts.filter keep)).take lim)

/-- The primary rows of posts.recent: newest posts first, limited. -/
def postsRecentRows (s : Store) (limit : Option JsNum) : List PostRow :=
  (postsSortedDesc (s.posts.filter (fun _ => true))).take (limOf limit)

/-- JSON image of an enriched post: the spread post fields plus `author`
and `place` (null when unresolved). -/
def enrichedPostJ (e : EnrichedPost) : Jv :=
  Jv.jobj (postFieldsJ e.post
    ++ [("author", jopt profileJ e.author), ("place", jopt placeJ e.place)])

/-- Handler of the posts.recent tool.  The primary fetch's failure is
converted to an error content block, but `enrichPosts` is not wrapped in
any try/catch: a failing batched fetch inside it escapes the handler as an
exception (`Except.error`). -/
def postsRecent (s : Store) (limit : Option JsNum) : HResult :=
  match fetchPostsWhere s (fun _ => true) (limOf limit) with
  | Except.error m => errResp m
  | Except.ok rows =>
    match enrichPosts s rows with
    | Except.error m => Except.error m
    | Except.ok enr =>
      okPayload (Jv.jobj [("limit", Jv.jnum (clampLimit limit)),
        ("data", Jv.jarr (enr.map enrichedPostJ))])

/-- Handler of the posts.get tool: single-row fetch by id; absence returns
`data: null` before any enrichment; an enrichment failure escapes as an
exception. -/
def postsGet (s : Store) (id : String) : HResult :=
  match s.postsFail with
  | some m => errResp m
  | none =>
    match maybeSingle (s.posts.filter (fun r => r.id = id)) with
    | Except.error m => errResp m
    | Except.ok none => okPayload (Jv.jobj [("id", Jv.jstr id), ("data", Jv.jnull)])
    | Except.ok (some p) =>
      match enrichPosts s [p] with
      | Except.error m => Except.error m
      | Except.ok enr =>
        okPayload (Jv.jobj [("id", Jv.jstr id),
          ("data", jopt enrichedPostJ enr.head?)])

/-- Handler of the posts.by_place tool: posts filtered by `place_id`,
newest first, limited, then enriched (enrichment failures escape). -/
def postsByPlace (s : Store) (place_id : String) (limit : Option JsNum) : HResult :=
  match fetchPostsWhere s (fun r => r.place_id = some place_id) (limOf limit) with
  | Except.error m => errResp m
  | Except.ok rows =>
    match enrichPosts s rows with
    | Except.error m => Except.error m
    | Except.ok enr =>
      okPayload (Jv.jobj [("place_id", Jv.jstr place_id),
        ("limit", Jv.jnum (clampLimit limit)),
        ("data", Jv.jarr (enr.map enrichedPostJ))])

/-- JSON image of a follow edge with an attached profile under the given
role-specific field name (`follower` or `followee`). -/
def followAttachJ (role : String) (r : FollowRow) (p : Option ProfileRow) : Jv :=
  Jv.jobj [("follower_id", Jv.jstr r.follower_id),
    ("followee_id", Jv.jstr r.followee_id), ("created_at", jstrO r.created_at),
    ("status", Jv.jstr r.status), ("request_read", Jv.jbool r.request_read),
    (role, jopt searchProfileJ p)]

/-- Handler of the follows.followers tool: accepted edges pointing at
`user_id`, newest first, limited, each with the follower's profile batch-
resolved (both fetch failures are converted to error content blocks). -/
def followsFollowers (s : Store) (user_id : String) (limit : Option JsNum) : HResult :=
  match s.followsFail with
  | some m => errResp m
  | none =>
    let rows := (List.insertionSort followDesc (s.follows.filter
      (fun r => r.followee_id = user_id && r.status = "accepted"))).take (limOf limit)
    let followerIds := uniq (rows.map (fun r => r.follower_id))
    let profStep : Except String (List ProfileRow) :=
      if followerIds.isEmpty then Except.ok []
      else fetchProfilesByIds s followerIds
    match profStep with
    | Except.error m => errResp m
    | Except.ok profs =>
      okPayload (Jv.jobj [("user_id", Jv.jstr user_id),
        ("limit", Jv.jnum (clampLimit limit)),
        ("data", Jv.jarr (rows.map (fun r =>
          followAttachJ "follower" r (lookupLastBy (fun p => p.id) profs r.follower_id))))])

/-- Handler of the follows.following tool: accepted edges leaving
`user_id`, newest first, limited, each with the followee's profile
batch-resolved. -/
def followsFollowing (s : Store) (user_id : String) (limit : Option JsNum) : HResult :=
  match s.followsFail with
  | some m => errResp m
  | none =>
    let rows := (List.insertionSort followDesc (s.follows.filter
      (fun r => r.follower_id = user_id && r.status = "accepted"))).take (limOf limit)
    let followeeIds := uniq (rows.map (fun r => r.followee_id))
    let profStep : Except String (List ProfileRow) :=
      if followeeIds.isEmpty then Except.ok []
      else fetchProfilesByIds s followeeIds
    match profStep with
    | Except.error m => errResp m
    | Except.ok profs =>
      okPayload (Jv.jobj [("user_id", Jv.jstr user_id),
        ("limit", Jv.jnum (clampLimit limit)),
        ("data", Jv.jarr (rows.map (fun r =>
          followAttachJ "followee" r (lookupLastBy (fun p => p.id) profs r.followee_id))))])

/-- The follow-edge fetch of feed.home: accepted edges whose follower is
`user_id`, capped at 200 (no order clause). -/
def feedFollowRows (s : Store) (user_id : String) : List FollowRow :=
  (s.follows.filter (fun r => r.follower_id = user_id && r.status = "accepted")).take 200

/-- The candidate author ids of feed.home:
`uniq([user_id, ...followeeIds]).slice(0, 200)` where `followeeIds` is the
de-duplicated followee list; the user is placed first, before the
de-duplication and the cap. -/
def feedCandidateIds (user_id : String) (followRows : List FollowRow) : List String :=
  (uniq (user_id :: uniq (followRows.map (fun r => r.followee_id)))).take 200

/-- The enriched feed assembled by feed.home, with the three failure points
merged into one `Except` (which fetch failed does not matter here). -/
def feedHomeCore (s : Store) (user_id : String) (limit : Option JsNum) :
    Except String (List EnrichedPost) :=
  match s.followsFail with
  | some m => Except.error m
  | none =>
    match fetchPostsWhere s
        (fun p => p.user_id ∈ feedCandidateIds user_id (feedFollowRows s user_id))
        (limOf limit) with
    | Except.error m => Except.error m
    | Except.ok rows => enrichPosts s rows

/-- Handler of the feed.home tool: the follow-edge fetch and the posts
fetch convert failures to error content blocks, while an enrichment
failure escapes as an exception. -/
def feedHome (s : Store) (user_id : String) (limit : Option JsNum) : HResult :=
  match s.followsFail with
  | some m => errResp m
  | none =>
    match fetchPostsWhere s
        (fun p => p.user_id ∈ feedCandidateIds user_id (feedFollowRows s user_id))
        (limOf limit) with
    | Except.error m => errResp m
    | Except.ok rows =>
      match enrichPosts s rows with
      | Except.error m => Except.error m
      | Except.ok enr =>
        okPayload (Jv.jobj [("user_id", Jv.jstr user_id),
          ("limit", Jv.jnum (clampLimit limit)),
          ("data", Jv.jarr (enr.map enrichedPostJ))])

/-- The same store with every non-accepted follow edge removed; the social
derivations cannot distinguish it from the original. -/
def acceptedOnly (s : Store) : Store :=
  ⟨s.profiles, s.places, s.posts, s.follows.filter (fun r => r.status = "accepted"),
    s.profilesFail, s.placesFail, s.postsFail, s.followsFail⟩

/-- Sample profile row with the given id, username and display name. -/
def mkProfile (id : String) (username display_name : Option String) : ProfileRow :=
  ⟨id, display_name, none, none, username, none, none, none, true, none⟩

/-- Sample place row with the given id and name. -/
def mkPlace (place_id : String) (name : Option String) : PlaceRow :=
  ⟨place_id, name, none, none, none, none, none, none, none, none, none, [], none, none, ""⟩

/-- Sample post row with the given id, author, timestamp and place ref. -/
def mkPost (id user_id : String) (created_at place_id : Option String) : PostRow :=
  ⟨id, user_id, none, created_at, none, none, none, place_id, none, none, none, none⟩

/-- Sample follow edge. -/
def mkFollow (follower followee status : String) : FollowRow :=
  ⟨follower, followee, none, status, false⟩

/-- A small healthy store: one profile, one place, two posts by the same
author (the older one referencing a place id absent from the places
table), no follow edges, no failures. -/
def storeA : Store :=
  ⟨[mkProfile "u1" (some "alice") (some "Alice")],
    [mkPlace "pl1" (some "Cafe")],
    [mkPost "po1" "u1" (some "2024-01-02T00:00:00Z") (some "pl1"),
      mkPost "po2" "u1" (some "2024-01-01T00:00:00Z") (some "missing")],
    [], none, none, none, none⟩

/-- A store whose profiles table fails with message boom while the posts
table holds one post, so the primary fetch of posts.recent succeeds and
the batched enrichment fetch fails. -/
def storeEnrichFail : Store :=
  ⟨[], [], [mkPost "po1" "u1" none none], [], some "boom", none, none, none⟩

/-- Two profiles for the profiles.search counterexample: pA matches the
query on username only and sits first in table order; pX matches on both
username and display name. -/
def pA : ProfileRow := mkProfile "p1" (some "abc") (some "zzz")

/-- The both-predicate match of the profiles.search counterexample. -/
def pX : ProfileRow := mkProfile "p2" (some "xaz") (some "va")

/-- Store for the profiles.search counterexample. -/
def storeC2 : Store := ⟨[pA, pX], [], [], [], none, none, none, none⟩

/-- An all-tables-failing-free empty store with a chosen failure flag per
table, for exercising the error-conversion paths. -/
def failStore (pf plf pof fwf : Option String) : Store :=
  ⟨[], [], [], [], pf, plf, pof, fwf⟩

/- ------------------------------------------------------------------ -/
/- Lemmas about the de-duplication helper. -/

lemma mem_uniqAux [DecidableEq α] (x : α) :
    ∀ (l seen : List α), x ∈ uniqAux seen l ↔ x ∈ l ∧ x ∉ seen := by
  intro l
  induction l with
  | nil => intro seen; simp [uniqAux]
  | cons a l ih =>
    intro seen
    by_cases ha : a ∈ seen
    · rw [uniqAux, if_pos ha, ih]
      constructor
      · exact fun h => ⟨List.mem_cons_of_mem a h.1, h.2⟩
      · rintro ⟨hx, hs⟩
        rcases List.mem_cons.mp hx with h | h
        · exact absurd (h ▸ ha) hs
        · exact ⟨h, hs⟩
    · rw [uniqAux, if_neg ha]
      simp only [List.mem_cons, ih]
      constructor
      · rintro (h | ⟨hl, hs⟩)
        · subst h; exact ⟨Or.inl rfl, ha⟩
        · exact ⟨Or.inr hl, fun hx => hs (Or.inr hx)⟩
      · rintro ⟨h | hl, hs⟩
        · exact Or.inl h
        · by_cases hxa : x = a
          · exact Or.inl hxa
          · exact Or.inr ⟨hl, fun hm => hm.elim hxa hs⟩

lemma nodup_uniqAux [DecidableEq α] :
    ∀ (l seen : List α), (uniqAux seen l).Nodup := by
  intro l
  induction l with
  | nil => intro seen; simp [uniqAux]
  | cons a l ih =>
    intro seen
    by_cases ha : a ∈ seen
    · rw [uniqAux, if_pos ha]; exact ih seen
    · rw [uniqAux, if_neg ha]
      refine List.nodup_cons.mpr ⟨?_, ih (a :: seen)⟩
      intro hmem
      exact ((mem_uniqAux a l (a :: seen)).mp hmem).2 (List.mem_cons_self a seen)

lemma mem_uniq [DecidableEq α] {x : α} {l : List α} : x ∈ uniq l ↔ x ∈ l := by
  unfold uniq
  rw [mem_uniqAux]
  simp

lemma nodup_uniq [DecidableEq α] (l : List α) : (uniq l).Nodup := nodup_uniqAux l []

lemma uniqAux_append [DecidableEq α] :
    ∀ (l₁ seen l₂ : List α), l₁.Nodup → (∀ x ∈ l₁, x ∉ seen) →
      ∃ t, uniqAux seen (l₁ ++ l₂) = l₁ ++ t ∧ ∀ x ∈ t, x ∉ l₁ ∧ x ∉ seen := by
  intro l₁
  induction l₁ with
  | nil =>
    intro seen l₂ _ _
    exact ⟨uniqAux seen l₂, rfl, fun x hx =>
      ⟨List.not_mem_nil x, ((mem_uniqAux x l₂ seen).mp hx).2⟩⟩
  | cons a l ih =>
    intro seen l₂ hnd hdisj
    have ha : a ∉ seen := hdisj a (List.mem_cons_self a l)
    have hstep : ∀ x ∈ l, x ∉ a :: seen := by
      intro x hxl hm
      rcases List.mem_cons.mp hm with h | h
      · exact (List.nodup_cons.mp hnd).1 (h ▸ hxl)
      · exact hdisj x (List.mem_cons_of_mem a hxl) h
    obtain ⟨t, ht, hprop⟩ := ih (a :: seen) l₂ (List.nodup_cons.mp hnd).2 hstep
    refine ⟨t, ?_, ?_⟩
    · rw [List.cons_append, uniqAux, if_neg ha, ht, List.cons_append]
    · intro x hx
      obtain ⟨hx1, hx2⟩ := hprop x hx
      have hxa : x ≠ a := fun h => hx2 (h ▸ List.mem_cons_self a seen)
      exact ⟨fun hm => (List.mem_cons.mp hm).elim hxa hx1,
        fun hm => hx2 (List.mem_cons_of_mem a hm)⟩

lemma uniq_append_nodup_left [DecidableEq α] (l₁ l₂ : List α) (h₁ : l₁.Nodup) :
    ∃ t, uniq (l₁ ++ l₂) = l₁ ++ t ∧ ∀ x ∈ t, x ∉ l₁ := by
  obtain ⟨t, ht, hp⟩ := uniqAux_append l₁ [] l₂ h₁ (by simp)
  exact ⟨t, ht, fun x hx => (hp x hx).1⟩

lemma uniq_cons (a : α) [DecidableEq α] (l : List α) :
    uniq (a :: l) = a :: uniqAux [a] l := by
  unfold uniq
  rw [uniqAux, if_neg (List.not_mem_nil a)]

/- ------------------------------------------------------------------ -/
/- Lemmas about the object-build lookup. -/

lemma foldl_lookStep_some (key : α → String) (k : String) :
    ∀ (rows : List α) (acc : Option α) (r : α),
      rows.foldl (lookStep key k) acc = some r →
      (r ∈ rows ∧ key r = k) ∨ acc = some r := by
  intro rows
  induction rows with
  | nil => intro acc r h; exact Or.inr h
  | cons a l ih =>
    intro acc r h
    rw [List.foldl_cons] at h
    rcases ih _ r h with ⟨hm, hk⟩ | hacc
    · exact Or.inl ⟨List.mem_cons_of_mem a hm, hk⟩
    · unfold lookStep at hacc
      by_cases hka : key a = k
      · rw [if_pos hka] at hacc
        exact Or.inl ⟨by rw [← Option.some_inj.mp hacc]; exact List.mem_cons_self a l,
          by rw [← Option.some_inj.mp hacc]; exact hka⟩
      · rw [if_neg hka] at hacc
        exact Or.inr hacc

lemma foldl_lookStep_none (key : α → String) (k : String) :
    ∀ (rows : List α) (acc : Option α),
      rows.foldl (lookStep key k) acc = none →
      acc = none ∧ ∀ r ∈ rows, key r ≠ k := by
  intro rows
  induction rows with
  | nil => intro acc h; exact ⟨h, by simp⟩
  | cons a l ih =>
    intro acc h
    rw [List.foldl_cons] at h
    obtain ⟨hstep, hrest⟩ := ih _ h
    unfold lookStep at hstep
    by_cases hka : key a = k
    · rw [if_pos hka] at hstep; exact absurd hstep (by simp)
    · rw [if_neg hka] at hstep
      refine ⟨hstep, ?_⟩
      intro r hr
      rcases List.mem_cons.mp hr with hra | hrl
      · exact hra ▸ hka
      · exact hrest r hrl

lemma lookupLastBy_mem {key : α → String} {rows : List α} {k : String} {r : α}
    (h : lookupLastBy key rows k = some r) : r ∈ rows ∧ key r = k := by
  rcases foldl_lookStep_some key k rows none r h with hgood | hbad
  · exact hgood
  · exact absurd hbad (by simp)

lemma lookupLastBy_eq_none {key : α → String} {rows : List α} {k : String}
    (h : lookupLastBy key rows k = none) : ∀ r ∈ rows, key r ≠ k :=
  (foldl_lookStep_none key k rows none h).2

lemma lookupLastBy_isSome {key : α → String} {rows : List α} {k : String}
    (h : k ∈ rows.map key) : ∃ r, lookupLastBy key rows k = some r := by
  cases hl : lookupLastBy key rows k with
  | none =>
    obtain ⟨r, hr, hrk⟩ := List.mem_map.mp h
    exact absurd hrk (lookupLastBy_eq_none hl r hr)
  | some r => exact ⟨r, rfl⟩

lemma lookupLastBy_eq_some_of_unique {key : α → String} {rows : List α} {k : String}
    {c : α} (hc : c ∈ rows) (hck : key c = k)
    (huniq : ∀ r ∈ rows, key r = k → r = c) : lookupLastBy key rows k = some c := by
  cases h : lookupLastBy key rows k with
  | none => exact absurd hck (lookupLastBy_eq_none h c hc)
  | some r =>
    obtain ⟨hr, hrk⟩ := lookupLastBy_mem h
    rw [huniq r hr hrk]

/-- Resolving a key through the batch-fetched filtered table equals a
direct first-match lookup in the table, provided the table's keys are
unique and the key was part of the batch. -/
lemma lookup_filter_eq_find (rows : List α) (key : α → String) (ks : List String)
    (hN : (rows.map key).Nodup) {k : String} (hk : k ∈ ks) :
    lookupLastBy key (rows.filter (fun r => key r ∈ ks)) k
      = rows.find? (fun r => key r = k) := by
  have keyInj := List.inj_on_of_nodup_map hN
  cases hf : rows.find? (fun r => key r = k) with
  | none =>
    have hnone : ∀ r ∈ rows, key r ≠ k := by
      intro r hr hrk
      have := List.find?_eq_none.mp hf r hr
      simp [hrk] at this
    cases hl : lookupLastBy key (rows.filter (fun r => key r ∈ ks)) k with
    | none => rfl
    | some c =>
      obtain ⟨hc, hck⟩ := lookupLastBy_mem hl
      exact absurd hck (hnone c (List.mem_filter.mp hc).1)
  | some c =>
    have hck : key c = k := by
      have := List.find?_some hf
      simpa using this
    have hcmem := List.mem_of_find?_eq_some hf
    apply lookupLastBy_eq_some_of_unique
    · exact List.mem_filter.mpr ⟨hcmem, by simp [hck, hk]⟩
    · exact hck
    · intro r hr hrk
      have hr' := (List.mem_filter.mp hr).1
      exact keyInj hr' hcmem (by rw [hrk, ← hck])

/- ------------------------------------------------------------------ -/
/- C3: the limit clamp. -/

/-- C3 counterexample: the claim says the clamp always yields a value in
[1, 20], but the input 0.5 is finite and positive, so it is floored to 0
and returned as 0, below the claimed lower bound 1. -/
theorem c3_counterexample :
    clampLimit (some (JsNum.fin (1 / 2))) = 0
    ∧ ¬(1 ≤ clampLimit (some (JsNum.fin (1 / 2)))) := by
  have h : clampLimit (some (JsNum.fin (1 / 2))) = 0 := by
    show (if (1:ℚ)/2 ≤ 0 then (10:Int) else min ⌊(1:ℚ)/2⌋ 20) = 0
    rw [if_neg (by norm_num)]
    norm_num
  exact ⟨h, by rw [h]; decide⟩

/-- C3 (amended): the shared clamp yields a value in [0, 20] (not [1, 20]):
10 when the input is absent, NaN, infinite, or ≤ 0; exactly 20 for finite
values above 20; and positive finite values are floored then capped, so an
input strictly between 0 and 1 yields 0. -/
theorem c3_clamp_amended (n : Option JsNum) :
    (0 ≤ clampLimit n ∧ clampLimit n ≤ 20)
    ∧ (n = none → clampLimit n = 10)
    ∧ (n = some JsNum.nan ∨ n = some JsNum.inf ∨ n = some JsNum.negInf →
        clampLimit n = 10)
    ∧ (∀ q : ℚ, n = some (JsNum.fin q) → q ≤ 0 → clampLimit n = 10)
    ∧ (∀ q : ℚ, n = some (JsNum.fin q) → 20 < q → clampLimit n = 20)
    ∧ (∀ q : ℚ, n = some (JsNum.fin q) → 0 < q →
        clampLimit n = min ⌊q⌋ 20) := by
  match n with
  | none => refine ⟨⟨by decide, by decide⟩, fun _ => rfl, ?_, ?_, ?_, ?_⟩ <;> simp
  | some JsNum.nan =>
    refine ⟨⟨by decide, by decide⟩, ?_, fun _ => rfl, ?_, ?_, ?_⟩ <;> simp
  | some JsNum.inf =>
    refine ⟨⟨by decide, by decide⟩, ?_, fun _ => rfl, ?_, ?_, ?_⟩ <;> simp
  | some JsNum.negInf =>
    refine ⟨⟨by decide, by decide⟩, ?_, fun _ => rfl, ?_, ?_, ?_⟩ <;> simp
  | some (JsNum.fin q) =>
    have hval : clampLimit (some (JsNum.fin q))
        = if q ≤ 0 then 10 else min ⌊q⌋ 20 := rfl
    refine ⟨?_, by simp, by simp, ?_, ?_, ?_⟩
    · rw [hval]
      by_cases hq : q ≤ 0
      · rw [if_pos hq]; exact ⟨by decide, by decide⟩
      · rw [if_neg hq]
        refine ⟨le_min (Int.floor_nonneg.mpr (le_of_lt (not_le.mp hq))) (by decide),
          min_le_right _ _⟩
    · intro w hw hw0
      have hq : q = w := by
        simp only [Option.some.injEq, JsNum.fin.injEq] at hw
        exact hw
      subst hq
      rw [hval, if_pos hw0]
    · intro w hw h20
      have hq : q = w := by
        simp only [Option.some.injEq, JsNum.fin.injEq] at hw
        exact hw
      subst hq
      rw [hval, if_neg (not_le.mpr (lt_trans (by norm_num) h20))]
      refine min_eq_right (Int.le_floor.mpr ?_)
      push_cast
      exact le_of_lt h20
    · intro w hw h0
      have hq : q = w := by
        simp only [Option.some.injEq, JsNum.fin.injEq] at hw
        exact hw
      subst hq
      rw [hval, if_neg (not_le.mpr h0)]

/-- C3 witness: the amended clamp contract applied at the concrete inputs
absent, 25, -3 and 3. -/
theorem c3_clamp_amended_witness :
    clampLimit none = 10
    ∧ ((20:ℚ) < 25 ∧ clampLimit (some (JsNum.fin 25)) = 20)
    ∧ (((-3:ℚ) ≤ 0) ∧ clampLimit (some (JsNum.fin (-3))) = 10)
    ∧ (((0:ℚ) < 3) ∧ clampLimit (some (JsNum.fin 3)) = min ⌊(3:ℚ)⌋ 20) :=
  ⟨(c3_clamp_amended none).2.1 rfl,
    ⟨by decide, (c3_clamp_amended (some (JsNum.fin 25))).2.2.2.2.1 25 rfl (by decide)⟩,
    ⟨by decide, (c3_clamp_amended (some (JsNum.fin (-3)))).2.2.2.1 (-3) rfl (by decide)⟩,
    ⟨by decide, (c3_clamp_amended (some (JsNum.fin 3))).2.2.2.2.2 3 rfl (by decide)⟩⟩

/- ------------------------------------------------------------------ -/
/- C10: the user id survives the candidate cap of feed.home. -/

/-- C10: in feed.home the requesting user's id is consed onto the followee
list before de-duplication and the 200-entry cap, so it is always the
head of the candidate author list; the cap only ever drops followee ids,
every candidate is the user or a fetched followee, and the list stays
within 200 entries. -/
theorem c10_feed_user_first (u : String) (rows : List FollowRow) :
    (feedCandidateIds u rows).head? = some u
    ∧ u ∈ feedCandidateIds u rows
    ∧ (∀ x ∈ feedCandidateIds u rows,
        x = u ∨ x ∈ rows.map (fun r => r.followee_id))
    ∧ (feedCandidateIds u rows).length ≤ 200 := by
  have hrep : feedCandidateIds u rows
      = u :: (uniqAux [u] (uniq (rows.map (fun r => r.followee_id)))).take 199 := by
    unfold feedCandidateIds
    rw [uniq_cons, show (200:Nat) = 199 + 1 from rfl, List.take_succ_cons]
  refine ⟨by rw [hrep]; rfl, by rw [hrep]; exact List.mem_cons_self u _, ?_, ?_⟩
  · intro x hx
    have hx2 := (List.take_sublist _ _).subset (by exact hx : x ∈ List.take 200 _)
    rcases List.mem_cons.mp (mem_uniq.mp hx2) with h | h
    · exact Or.inl h
    · exact Or.inr (mem_uniq.mp h)
  · unfold feedCandidateIds
    rw [List.length_take]
    exact min_le_left _ _

/-- C10 witness: the candidate-membership conjunct applied at a concrete
user and edge list. -/
theorem c10_feed_user_first_witness :
    "u2" ∈ feedCandidateIds "u1" [mkFollow "u1" "u2" "accepted"]
    ∧ ("u2" = "u1"
        ∨ "u2" ∈ [mkFollow "u1" "u2" "accepted"].map (fun r => r.followee_id)) :=
  ⟨by decide,
    (c10_feed_user_first "u1" [mkFollow "u1" "u2" "accepted"]).2.2.1 "u2" (by decide)⟩

/- ------------------------------------------------------------------ -/
/- C9: the profiles.get parameter guard. -/

/-- C9 counterexample: calling profiles.get with neither parameter is not
rejected before the handler runs - the schema has no required fields, the
dispatcher runs the handler, and the handler itself returns an error
content block; and a call supplying both id and username is accepted and
answered by the id lookup, so the two parameters are not mutually
exclusive. -/
theorem c9_counterexample :
    dispatchProfilesGet storeA none none
      = Dispatched.ran (Except.ok ⟨[Content.errText "provide id or username"]⟩)
    ∧ dispatchProfilesGet storeA (some "u1") (some "zzz")
      = Dispatched.ran (okPayload (Jv.jobj [("id", Jv.jstr "u1"),
          ("username", Jv.jstr "zzz"),
          ("data", profileJ (mkProfile "u1" (some "alice") (some "Alice")))])) :=
  ⟨rfl, rfl⟩

/-- C9 (amended): profiles.get's schema accepts every (id?, username?)
combination, so the missing-parameter case reaches the handler, which
returns the error content block "Error: provide id or username" when both
parameters are absent or empty; when a non-empty id is supplied, the
lookup ignores the username parameter (id takes precedence) instead of
requiring exactly one of the two. -/
theorem c9_profiles_get_guard_amended (s : Store) (i u : Option String) :
    profilesGetSchemaOk i u = true
    ∧ ((truthy i || truthy u) = false →
        dispatchProfilesGet s i u
          = Dispatched.ran (Except.ok ⟨[Content.errText "provide id or username"]⟩))
    ∧ (truthy i = true → ∀ v w : Option String,
        profilesGetData s i v = profilesGetData s i w) := by
  refine ⟨rfl, ?_, ?_⟩
  · intro h
    simp [dispatchProfilesGet, profilesGetSchemaOk, profilesGet, h, errResp]
  · intro h v w
    simp [profilesGetData, h]

/-- C9 witness: the amended guard applied with both parameters absent and
with a non-empty id. -/
theorem c9_profiles_get_guard_amended_witness :
    ((truthy none || truthy none) = false
      ∧ dispatchProfilesGet storeA none none
          = Dispatched.ran (Except.ok ⟨[Content.errText "provide id or username"]⟩))
    ∧ (truthy (some "u1") = true
      ∧ profilesGetData storeA (some "u1") none
          = profilesGetData storeA (some "u1") (some "zzz")) :=
  ⟨⟨by decide, (c9_profiles_get_guard_amended storeA none none).2.1 (by decide)⟩,
    ⟨by decide,
      (c9_profiles_get_guard_amended storeA (some "u1") none).2.2 (by decide)
        none (some "zzz")⟩⟩

/- ------------------------------------------------------------------ -/
/- C7: absent single-row lookups return data: null. -/

/-- C7: when no row matches the requested id, places.get, profiles.get and
posts.get return a success payload whose data field is null, not an error
content block: absence is distinguished from store failure. -/
theorem c7_get_absent (s : Store) (pid prid poid : String) :
    (s.placesFail = none → (∀ r ∈ s.places, r.place_id ≠ pid) →
      placesGet s pid
        = okPayload (Jv.jobj [("place_id", Jv.jstr pid), ("data", Jv.jnull)]))
    ∧ (s.profilesFail = none → prid ≠ "" → (∀ r ∈ s.profiles, r.id ≠ prid) →
      profilesGet s (some prid) none
        = okPayload (Jv.jobj [("id", Jv.jstr prid), ("username", Jv.jnull),
            ("data", Jv.jnull)]))
    ∧ (s.postsFail = none → (∀ r ∈ s.posts, r.id ≠ poid) →
      postsGet s poid
        = okPayload (Jv.jobj [("id", Jv.jstr poid), ("data", Jv.jnull)])) := by
  refine ⟨?_, ?_, ?_⟩
  · intro hpl habs
    have hfil : s.places.filter (fun r => r.place_id = pid) = [] :=
      List.filter_eq_nil_iff.mpr (by intro a ha; simpa using habs a ha)
    simp [placesGet, hpl, hfil, maybeSingle, jopt]
  · intro hpr hne habs
    have htr : truthy (some prid) = true := by simp [truthy, hne]
    have hfil : s.profiles.filter (fun r => r.id = prid) = [] :=
      List.filter_eq_nil_iff.mpr (by intro a ha; simpa using habs a ha)
    simp [profilesGet, profilesGetData, htr, hpr, hfil, maybeSingle, jopt, jstrO]
  · intro hpo habs
    have hfil : s.posts.filter (fun r => r.id = poid) = [] :=
      List.filter_eq_nil_iff.mpr (by intro a ha; simpa using habs a ha)
    simp [postsGet, hpo, hfil, maybeSingle]

/-- C7 witness: the three absent-id lookups applied to the sample store at
ids that its tables do not contain. -/
theorem c7_get_absent_witness :
    (storeA.placesFail = none ∧ (∀ r ∈ storeA.places, r.place_id ≠ "nope")
      ∧ placesGet storeA "nope"
          = okPayload (Jv.jobj [("place_id", Jv.jstr "nope"), ("data", Jv.jnull)]))
    ∧ ((∀ r ∈ storeA.profiles, r.id ≠ "nobody")
      ∧ profilesGet storeA (some "nobody") none
          = okPayload (Jv.jobj [("id", Jv.jstr "nobody"), ("username", Jv.jnull),
              ("data", Jv.jnull)]))
    ∧ ((∀ r ∈ storeA.posts, r.id ≠ "nothing")
      ∧ postsGet storeA "nothing"
          = okPayload (Jv.jobj [("id", Jv.jstr "nothing"), ("data", Jv.jnull)])) :=
  ⟨⟨rfl, by decide, (c7_get_absent storeA "nope" "x" "x").1 rfl (by decide)⟩,
    ⟨by decide,
      (c7_get_absent storeA "x" "nobody" "x").2.1 rfl (by decide) (by decide)⟩,
    ⟨by decide, (c7_get_absent storeA "x" "x" "nothing").2.2 rfl (by decide)⟩⟩

/- ------------------------------------------------------------------ -/
/- C5: conversion of store failures into error content blocks. -/

/-- C5 counterexample: with a healthy posts table holding one post and a
failing profiles table, posts.recent's primary fetch succeeds, the batched
enrichment fetch fails, and the failure escapes the handler as an
exception instead of being converted into an error content block. -/
theorem c5_counterexample :
    postsRecent storeEnrichFail none = Except.error "boom" := rfl

/-- C5 (amended): every handler converts the failure of a store fetch it
awaits directly into an error content block carrying the store's message
inside a well-formed response; but a failure of a batched fetch performed
during enrichment is thrown and escapes the enriching handler
(posts.recent shown) as an exception rather than being converted. -/
theorem c5_error_conversion_amended (s : Store) (m pid q id0 uid : String)
    (limit : Option JsNum) (i u : Option String) :
    (s.placesFail = some m →
      placesGet s pid = errResp m ∧ placesSearch s q limit = errResp m)
    ∧ (s.profilesFail = some m →
        profilesSearch s q limit = errResp m
        ∧ ((truthy i || truthy u) = true → profilesGet s i u = errResp m))
    ∧ (s.postsFail = some m →
        postsRecent s limit = errResp m ∧ postsGet s id0 = errResp m
        ∧ postsByPlace s pid limit = errResp m)
    ∧ (s.followsFail = some m →
        followsFollowers s uid limit = errResp m
        ∧ followsFollowing s uid limit = errResp m
        ∧ feedHome s uid limit = errResp m)
    ∧ (s.followsFail = none → s.postsFail = some m →
        feedHome s uid limit = errResp m)
    ∧ (s.postsFail = none → s.profilesFail = some m →
        (∃ p ∈ postsRecentRows s limit, p.user_id ≠ "") →
        postsRecent s limit = Except.error m) := by
  refine ⟨?_, ?_, ?_, ?_, ?_, ?_⟩
  · intro h
    exact ⟨by simp [placesGet, h], by simp [placesSearch, h]⟩
  · intro h
    refine ⟨by simp [profilesSearch, profilesSearchT, h], ?_⟩
    intro hc
    simp [profilesGet, profilesGetData, h, hc]
  · intro h
    exact ⟨by simp [postsRecent, fetchPostsWhere, h],
      by simp [postsGet, h],
      by simp [postsByPlace, fetchPostsWhere, h]⟩
  · intro h
    exact ⟨by simp [followsFollowers, h], by simp [followsFollowing, h],
      by simp [feedHome, h]⟩
  · intro hfw hpo
    simp [feedHome, hfw, fetchPostsWhere, hpo]
  · intro hpo hpr hex
    obtain ⟨p, hp, hpne⟩ := hex
    have hrows : fetchPostsWhere s (fun _ => true) (limOf limit)
        = Except.ok (postsRecentRows s limit) := by
      simp [fetchPostsWhere, hpo, postsRecentRows]
    have hmem : p.user_id ∈ postUserIds (postsRecentRows s limit) :=
      mem_uniq.mpr (List.mem_filter.mpr
        ⟨List.mem_map_of_mem _ hp, by simp [hpne]⟩)
    have hne : (postUserIds (postsRecentRows s limit)).isEmpty = false := by
      cases hie : (postUserIds (postsRecentRows s limit)).isEmpty
      · rfl
      · rw [List.isEmpty_iff] at hie
        rw [hie] at hmem
        exact absurd hmem (List.not_mem_nil _)
    have henr : enrichPosts s (postsRecentRows s limit) = Except.error m := by
      simp [enrichPosts, enrichPostsT, hne, fetchProfilesByIds, hpr]
    rw [postsRecent, hrows]
    simp [henr]

/-- C5 witness: the amended conversion contract applied at concrete
failing stores, plus the escape case at the enrichment-failure store. -/
theorem c5_error_conversion_amended_witness :
    ((failStore none (some "pf") none none).placesFail = some "pf"
      ∧ placesGet (failStore none (some "pf") none none) "p1" = errResp "pf")
    ∧ ((failStore (some "uf") none none none).profilesFail = some "uf"
      ∧ profilesSearch (failStore (some "uf") none none none) "q" none = errResp "uf")
    ∧ ((failStore none none none (some "ff")).followsFail = some "ff"
      ∧ feedHome (failStore none none none (some "ff")) "u1" none = errResp "ff")
    ∧ (storeEnrichFail.postsFail = none
      ∧ storeEnrichFail.profilesFail = some "boom"
      ∧ (∃ p ∈ postsRecentRows storeEnrichFail none, p.user_id ≠ "")
      ∧ postsRecent storeEnrichFail none = Except.error "boom") := by
  refine ⟨⟨rfl, ?_⟩, ⟨rfl, ?_⟩, ⟨rfl, ?_⟩, rfl, rfl, ?_, ?_⟩
  · exact (c5_error_conversion_amended (failStore none (some "pf") none none)
      "pf" "p1" "q" "i" "u" none none none).1 rfl |>.1
  · exact (c5_error_conversion_amended (failStore (some "uf") none none none)
      "uf" "p1" "q" "i" "u" none none none).2.1 rfl |>.1
  · exact (c5_error_conversion_amended (failStore none none none (some "ff"))
      "ff" "p1" "q" "i" "u1" none none none).2.2.2.1 rfl |>.2.2
  · exact ⟨mkPost "po1" "u1" none none, by decide, by decide⟩
  · exact (c5_error_conversion_amended storeEnrichFail "boom" "p1" "q" "i" "u1"
      none none none).2.2.2.2.2 rfl rfl
      ⟨mkPost "po1" "u1" none none, by decide, by decide⟩

/- ------------------------------------------------------------------ -/
/- C1: the enrichment batching invariant. -/

/-- C1: for every batch of posts, the enrichment engine issues at most one
profiles fetch and at most one places fetch; the key sets it fetches are
de-duplicated; with a healthy store the trace is exactly one fetch per
non-empty key set and no fetch for an empty one (never one fetch per
record); and on batches whose foreign keys are non-degenerate the key sets
are exactly the de-duplicated non-null foreign key values. -/
theorem c1_enrichment_batching (s : Store) (posts : List PostRow) :
    ((enrichPostsT s posts).2.countP Fetch.isProfilesByIds ≤ 1
      ∧ (enrichPostsT s posts).2.countP Fetch.isPlacesByIds ≤ 1)
    ∧ (postUserIds posts).Nodup
    ∧ (postPlaceIds posts).Nodup
    ∧ (s.profilesFail = none → s.placesFail = none →
        (enrichPostsT s posts).2
          = (if postUserIds posts = [] then []
             else [Fetch.profilesByIds (postUserIds posts)])
            ++ (if postPlaceIds posts = [] then []
                else [Fetch.placesByIds (postPlaceIds posts)]))
    ∧ ((∀ p ∈ posts, p.user_id ≠ "") →
        postUserIds posts = uniq (posts.map (fun p => p.user_id)))
    ∧ ((∀ p ∈ posts, p.place_id ≠ some "") →
        postPlaceIds posts = uniq (posts.filterMap (fun p => p.place_id))) := by
  have htrace : (enrichPostsT s posts).2 = []
      ∨ (enrichPostsT s posts).2 = [Fetch.profilesByIds (postUserIds posts)]
      ∨ (enrichPostsT s posts).2 = [Fetch.placesByIds (postPlaceIds posts)]
      ∨ (enrichPostsT s posts).2
          = [Fetch.profilesByIds (postUserIds posts),
             Fetch.placesByIds (postPlaceIds posts)] := by
    unfold enrichPostsT
    by_cases h1 : (postUserIds posts).isEmpty = true
    · by_cases h2 : (postPlaceIds posts).isEmpty = true
      · left; simp [h1, h2]
      · cases hf : fetchPlacesByIds s (postPlaceIds posts) <;>
          (right; right; left; simp [h1, h2, hf])
    · cases hfp : fetchProfilesByIds s (postUserIds posts) with
      | error m => right; left; simp [h1, hfp]
      | ok profRows =>
        by_cases h2 : (postPlaceIds posts).isEmpty = true
        · right; left; simp [h1, h2, hfp]
        · cases hfl : fetchPlacesByIds s (postPlaceIds posts) <;>
            (right; right; right; simp [h1, h2, hfp, hfl])
  refine ⟨⟨?_, ?_⟩, nodup_uniq _, nodup_uniq _, ?_, ?_, ?_⟩
  · rcases htrace with h | h | h | h <;>
      simp [h, List.countP_cons, List.countP_nil,
        Fetch.isProfilesByIds, Fetch.isPlacesByIds]
  · rcases htrace with h | h | h | h <;>
      simp [h, List.countP_cons, List.countP_nil,
        Fetch.isProfilesByIds, Fetch.isPlacesByIds]
  · intro hpr hpl
    have hfp : ∀ ids, fetchProfilesByIds s ids
        = Except.ok (s.profiles.filter (fun r => r.id ∈ ids)) := by
      intro ids; simp [fetchProfilesByIds, hpr]
    have hfl : ∀ ids, fetchPlacesByIds s ids
        = Except.ok (s.places.filter (fun r => r.place_id ∈ ids)) := by
      intro ids; simp [fetchPlacesByIds, hpl]
    unfold enrichPostsT
    by_cases h1 : postUserIds posts = [] <;> by_cases h2 : postPlaceIds posts = [] <;>
      simp [h1, h2, List.isEmpty_iff, hfp, hfl]
  · intro hall
    unfold postUserIds
    rw [List.filter_eq_self.mpr]
    intro a ha
    obtain ⟨p, hp, hpa⟩ := List.mem_map.mp ha
    subst hpa
    simp [hall p hp]
  · intro hall
    unfold postPlaceIds
    rw [List.filter_eq_self.mpr]
    intro a ha
    obtain ⟨p, hp, hpa⟩ := List.mem_filterMap.mp ha
    have hane : a ≠ "" := by
      intro h
      subst h
      exact (hall p hp) hpa
    simp [hane]

/-- C1 witness: the batching invariant applied to the sample store's batch
of two posts sharing one author and referencing two distinct places:
exactly one fetch per foreign type, keyed by the de-duplicated sets. -/
theorem c1_enrichment_batching_witness :
    storeA.profilesFail = none ∧ storeA.placesFail = none
    ∧ (enrichPostsT storeA storeA.posts).2
        = [Fetch.profilesByIds ["u1"], Fetch.placesByIds ["pl1", "missing"]] := by
  refine ⟨rfl, rfl, ?_⟩
  have h := (c1_enrichment_batching storeA storeA.posts).2.2.2.1 rfl rfl
  rw [h]
  decide

/- ------------------------------------------------------------------ -/
/- C8: social derivations only see accepted follow edges. -/

lemma filter_accepted_idem (l : List FollowRow) (p : FollowRow → Bool) :
    (l.filter (fun r => r.status = "accepted")).filter
        (fun r => p r && r.status = "accepted")
      = l.filter (fun r => p r && r.status = "accepted") := by
  rw [List.filter_filter]
  apply List.filter_congr
  intro r _
  by_cases h : r.status = "accepted" <;> simp [h]

lemma feedFollowRows_acceptedOnly (s : Store) (u : String) :
    feedFollowRows (acceptedOnly s) u = feedFollowRows s u := by
  unfold feedFollowRows acceptedOnly
  rw [filter_accepted_idem]

/-- C8: removing every non-accepted follow edge from the store changes
nothing in followers, following, or the home feed: all three only query
edges through a status-accepted filter, so pending (or any other) edges
are invisible to the social derivations. -/
theorem c8_accepted_only_invariance (s : Store) (uid : String) (limit : Option JsNum) :
    followsFollowers s uid limit = followsFollowers (acceptedOnly s) uid limit
    ∧ followsFollowing s uid limit = followsFollowing (acceptedOnly s) uid limit
    ∧ feedHome s uid limit = feedHome (acceptedOnly s) uid limit := by
  refine ⟨?_, ?_, ?_⟩
  · cases hsf : s.followsFail with
    | some m => simp [followsFollowers, acceptedOnly, hsf]
    | none =>
      simp only [followsFollowers, acceptedOnly, hsf]
      rw [filter_accepted_idem]
      rfl
  · cases hsf : s.followsFail with
    | some m => simp [followsFollowing, acceptedOnly, hsf]
    | none =>
      simp only [followsFollowing, acceptedOnly, hsf]
      rw [filter_accepted_idem]
      rfl
  · cases hsf : s.followsFail with
    | some m => simp [feedHome, acceptedOnly, hsf]
    | none =>
      simp only [feedHome, hsf]
      have h1 : (acceptedOnly s).followsFail = s.followsFail := rfl
      rw [h1, hsf]
      rw [show fetchPostsWhere (acceptedOnly s) = fetchPostsWhere s from rfl,
        feedFollowRows_acceptedOnly,
        show feedCandidateIds uid (feedFollowRows s uid)
            = feedCandidateIds uid (feedFollowRows s uid) from rfl]
      rw [show enrichPosts (acceptedOnly s) = enrichPosts s from rfl]

/- ------------------------------------------------------------------ -/
/- C6: enrichment is a frame-preserving pure transform. -/

/-- C6: with a healthy store whose tables have unique keys and a batch
whose foreign keys are non-degenerate (author ids non-empty, place refs
not the empty string - both are UUIDs/place ids in practice), enrichment
returns exactly the input list in order, each post unchanged, with
`author` the unique matching profile row (null when none matches) and
`place` the unique matching place row (null when the post has no place
ref or no row matches); absence is never an error. -/
theorem c6_enrichment_frame (s : Store) (posts : List PostRow)
    (hpr : s.profilesFail = none) (hpl : s.placesFail = none)
    (hNp : (s.profiles.map (fun r => r.id)).Nodup)
    (hNl : (s.places.map (fun r => r.place_id)).Nodup)
    (hu : ∀ p ∈ posts, p.user_id ≠ "")
    (hpid : ∀ p ∈ posts, p.place_id ≠ some "") :
    enrichPosts s posts = Except.ok (posts.map (fun p =>
      ⟨p, s.profiles.find? (fun r => r.id = p.user_id),
        p.place_id.bind (fun pid =>
          s.places.find? (fun r => r.place_id = pid))⟩)) := by
  have huMem : ∀ p ∈ posts, p.user_id ∈ postUserIds posts := fun p hp =>
    mem_uniq.mpr (List.mem_filter.mpr
      ⟨List.mem_map_of_mem _ hp, by simp [hu p hp]⟩)
  have hpMem : ∀ p ∈ posts, ∀ pid, p.place_id = some pid →
      pid ∈ postPlaceIds posts := by
    intro p hp pid h2
    refine mem_uniq.mpr (List.mem_filter.mpr
      ⟨List.mem_filterMap.mpr ⟨p, hp, h2⟩, ?_⟩)
    have hne : pid ≠ "" := by
      intro h
      subst h
      exact (hpid p hp) h2
    simp [hne]
  cases hUe : (postUserIds posts).isEmpty with
  | true =>
    have hnil : posts = [] := by
      cases posts with
      | nil => rfl
      | cons p ps =>
        exfalso
        rw [List.isEmpty_iff] at hUe
        have hm := huMem p (List.mem_cons_self p ps)
        rw [hUe] at hm
        exact absurd hm (List.not_mem_nil _)
    subst hnil
    rfl
  | false =>
    have hprof : fetchProfilesByIds s (postUserIds posts)
        = Except.ok (s.profiles.filter (fun r => r.id ∈ postUserIds posts)) := by
      simp [fetchProfilesByIds, hpr]
    cases hPe : (postPlaceIds posts).isEmpty with
    | true =>
      have hres : enrichPosts s posts = Except.ok (posts.map
          (enrichAttach
            (s.profiles.filter (fun r => r.id ∈ postUserIds posts)) [])) := by
        simp [enrichPosts, enrichPostsT, hUe, hPe, hprof]
      rw [hres]
      refine congrArg Except.ok (List.map_congr_left ?_)
      intro p hp
      unfold enrichAttach
      rw [lookup_filter_eq_find s.profiles (fun r => r.id) (postUserIds posts)
        hNp (huMem p hp)]
      cases hpl2 : p.place_id with
      | none => rfl
      | some pid =>
        exfalso
        rw [List.isEmpty_iff] at hPe
        have hm := hpMem p hp pid hpl2
        rw [hPe] at hm
        exact absurd hm (List.not_mem_nil _)
    | false =>
      have hplace : fetchPlacesByIds s (postPlaceIds posts)
          = Except.ok (s.places.filter
              (fun r => r.place_id ∈ postPlaceIds posts)) := by
        simp [fetchPlacesByIds, hpl]
      have hres : enrichPosts s posts = Except.ok (posts.map
          (enrichAttach
            (s.profiles.filter (fun r => r.id ∈ postUserIds posts))
            (s.places.filter (fun r => r.place_id ∈ postPlaceIds posts)))) := by
        simp [enrichPosts, enrichPostsT, hUe, hPe, hprof, hplace]
      rw [hres]
      refine congrArg Except.ok (List.map_congr_left ?_)
      intro p hp
      unfold enrichAttach
      rw [lookup_filter_eq_find s.profiles (fun r => r.id) (postUserIds posts)
        hNp (huMem p hp)]
      cases hpl2 : p.place_id with
      | none => rfl
      | some pid =>
        have hpidne : pid ≠ "" := by
          intro h
          subst h
          exact (hpid p hp) hpl2
        dsimp only
        rw [if_neg hpidne,
          lookup_filter_eq_find s.places (fun r => r.place_id) (postPlaceIds posts)
            hNl (hpMem p hp pid hpl2)]
        rfl

/-- C6 witness: enriching one post with a dangling place reference against
the sample store yields the post unchanged with its author resolved and
place null. -/
theorem c6_enrichment_frame_witness :
    storeA.profilesFail = none
    ∧ (∀ p ∈ [mkPost "po2" "u1" none (some "missing")], p.user_id ≠ "")
    ∧ (∀ p ∈ [mkPost "po2" "u1" none (some "missing")], p.place_id ≠ some "")
    ∧ enrichPosts storeA [mkPost "po2" "u1" none (some "missing")]
        = Except.ok ([mkPost "po2" "u1" none (some "missing")].map (fun p =>
            ⟨p, storeA.profiles.find? (fun r => r.id = p.user_id),
              p.place_id.bind (fun pid =>
                storeA.places.find? (fun r => r.place_id = pid))⟩)) :=
  ⟨rfl, by decide, by decide,
    c6_enrichment_frame storeA [mkPost "po2" "u1" none (some "missing")]
      rfl rfl (by decide) (by decide) (by decide) (by decide)⟩

/- ------------------------------------------------------------------ -/
/- C4: assembly of the home feed. -/

lemma enrichPosts_ok (s : Store) (posts : List PostRow)
    (hpr : s.profilesFail = none) (hpl : s.placesFail = none) :
    ∃ a b, enrichPosts s posts = Except.ok (posts.map (enrichAttach a b)) := by
  cases hUe : (postUserIds posts).isEmpty with
  | true =>
    cases hPe : (postPlaceIds posts).isEmpty with
    | true =>
      exact ⟨[], [], by simp [enrichPosts, enrichPostsT, hUe, hPe]⟩
    | false =>
      refine ⟨[], s.places.filter (fun r => r.place_id ∈ postPlaceIds posts), ?_⟩
      simp [enrichPosts, enrichPostsT, hUe, hPe, fetchPlacesByIds, hpl]
  | false =>
    cases hPe : (postPlaceIds posts).isEmpty with
    | true =>
      refine ⟨s.profiles.filter (fun r => r.id ∈ postUserIds posts), [], ?_⟩
      simp [enrichPosts, enrichPostsT, hUe, hPe, fetchProfilesByIds, hpr]
    | false =>
      refine ⟨s.profiles.filter (fun r => r.id ∈ postUserIds posts),
        s.places.filter (fun r => r.place_id ∈ postPlaceIds posts), ?_⟩
      simp [enrichPosts, enrichPostsT, hUe, hPe, fetchProfilesByIds,
        fetchPlacesByIds, hpr, hpl]

lemma feedCandidateIds_mem {u x : String} {rows : List FollowRow}
    (hx : x ∈ feedCandidateIds u rows) :
    x = u ∨ x ∈ rows.map (fun r => r.followee_id) := by
  unfold feedCandidateIds at hx
  have hx2 := (List.take_sublist _ _).subset hx
  rcases List.mem_cons.mp (mem_uniq.mp hx2) with h | h
  · exact Or.inl h
  · exact Or.inr (mem_uniq.mp h)

/-- C4: with a healthy store, feed.home yields an enriched post list of
length at most the clamped limit, sorted newest first, drawn from the
posts table, every post authored by the user or by an accepted followee;
in particular with zero accepted followees every post in the feed is the
user's own. -/
theorem c4_feed_home (s : Store) (user_id : String) (limit : Option JsNum)
    (hfw : s.followsFail = none) (hpo : s.postsFail = none)
    (hpr : s.profilesFail = none) (hpl : s.placesFail = none) :
    ∃ l, feedHomeCore s user_id limit = Except.ok l
      ∧ l.length ≤ limOf limit
      ∧ List.Pairwise postDesc (l.map (fun e => e.post))
      ∧ (∀ e ∈ l, e.post ∈ s.posts)
      ∧ (∀ e ∈ l, e.post.user_id = user_id
          ∨ ∃ f ∈ s.follows, f.follower_id = user_id ∧ f.status = "accepted"
              ∧ f.followee_id = e.post.user_id)
      ∧ ((∀ f ∈ s.follows, f.follower_id = user_id → f.status ≠ "accepted") →
          ∀ e ∈ l, e.post.user_id = user_id) := by
  have hkeep : ∀ p : PostRow,
      (decide (p.user_id ∈ feedCandidateIds user_id (feedFollowRows s user_id)) = true)
        → p.user_id ∈ feedCandidateIds user_id (feedFollowRows s user_id) :=
    fun p h => of_decide_eq_true h
  set keep : PostRow → Bool :=
    fun p => p.user_id ∈ feedCandidateIds user_id (feedFollowRows s user_id) with hkeepdef
  set rows : List PostRow :=
    (postsSortedDesc (s.posts.filter keep)).take (limOf limit) with hrowsdef
  have hF : feedHomeCore s user_id limit = enrichPosts s rows := by
    simp [feedHomeCore, hfw, fetchPostsWhere, hpo, hrowsdef]
  obtain ⟨a, b, hE⟩ := enrichPosts_ok s rows hpr hpl
  have hrowsmem : ∀ p ∈ rows, p ∈ s.posts.filter keep := by
    intro p hp
    have h1 := (List.take_sublist _ _).subset hp
    exact ((List.perm_insertionSort postDesc _).mem_iff).mp h1
  have hmapback : (rows.map (enrichAttach a b)).map (fun e => e.post) = rows := by
    rw [List.map_map]
    have : ((fun e : EnrichedPost => e.post) ∘ enrichAttach a b) = fun p => p := by
      funext p
      rfl
    rw [this, List.map_id']
  refine ⟨rows.map (enrichAttach a b), by rw [hF, hE], ?_, ?_, ?_, ?_, ?_⟩
  · rw [List.length_map, hrowsdef, List.length_take]
    exact min_le_left _ _
  · rw [hmapback, hrowsdef]
    exact (List.sorted_insertionSort postDesc _).sublist (List.take_sublist _ _)
  · intro e he
    obtain ⟨p, hp, hpe⟩ := List.mem_map.mp he
    rw [← hpe]
    exact (List.mem_filter.mp (hrowsmem p hp)).1
  · intro e he
    obtain ⟨p, hp, hpe⟩ := List.mem_map.mp he
    rw [← hpe]
    have hk := hkeep p (List.mem_filter.mp (hrowsmem p hp)).2
    rcases feedCandidateIds_mem hk with h | h
    · exact Or.inl h
    · obtain ⟨f, hf, hfe⟩ := List.mem_map.mp h
      have hf2 := (List.take_sublist _ _).subset hf
      obtain ⟨hfmem, hfprop⟩ := List.mem_filter.mp hf2
      have hfp2 : f.follower_id = user_id ∧ f.status = "accepted" := by
        simpa using hfprop
      exact Or.inr ⟨f, hfmem, hfp2.1, hfp2.2, hfe⟩
  · intro hno e he
    obtain ⟨p, hp, hpe⟩ := List.mem_map.mp he
    rw [← hpe]
    have hk := hkeep p (List.mem_filter.mp (hrowsmem p hp)).2
    have hempty : feedFollowRows s user_id = [] := by
      unfold feedFollowRows
      rw [List.filter_eq_nil_iff.mpr]
      · rfl
      · intro f hf
        simp only [Bool.and_eq_true, decide_eq_true_eq, not_and]
        intro h1 h2
        exact hno f hf h1 h2
    rw [hempty] at hk
    rcases feedCandidateIds_mem hk with h | h
    · exact h
    · exact absurd h (by simp)

/-- C4 witness: the feed contract applied to the sample store (no follow
edges, so zero accepted followees) at user u1. -/
theorem c4_feed_home_witness :
    storeA.followsFail = none ∧ storeA.postsFail = none
    ∧ storeA.profilesFail = none ∧ storeA.placesFail = none
    ∧ ∃ l, feedHomeCore storeA "u1" none = Except.ok l
        ∧ l.length ≤ limOf none
        ∧ (∀ e ∈ l, e.post.user_id = "u1") := by
  refine ⟨rfl, rfl, rfl, rfl, ?_⟩
  obtain ⟨l, h1, h2, _, _, _, h6⟩ := c4_feed_home storeA "u1" none rfl rfl rfl rfl
  exact ⟨l, h1, h2, h6 (by decide)⟩

/- ------------------------------------------------------------------ -/
/- C2: the profiles.search merge contract. -/

lemma filterMap_lookup_map_id (rows : List ProfileRow) :
    ∀ ks : List String, (∀ k ∈ ks, k ∈ rows.map (fun r => r.id)) →
      (ks.filterMap (lookupLastBy (fun r => r.id) rows)).map (fun r => r.id) = ks := by
  intro ks
  induction ks with
  | nil => intro _; simp
  | cons k ks ih =>
    intro hall
    obtain ⟨r, hr⟩ := lookupLastBy_isSome (hall k (List.mem_cons_self k ks))
    simp only [List.filterMap_cons, hr, List.map_cons]
    rw [(lookupLastBy_mem hr).2,
      ih (fun x hx => hall x (List.mem_cons_of_mem k hx))]

lemma dedupJS_map_id (rows : List ProfileRow) :
    (dedupJS rows).map (fun r => r.id) = uniq (rows.map (fun r => r.id)) :=
  filterMap_lookup_map_id rows _ (fun _ hk => mem_uniq.mp hk)

lemma dedupJS_subset {rows : List ProfileRow} {r : ProfileRow}
    (h : r ∈ dedupJS rows) : r ∈ rows := by
  obtain ⟨_, _, hlk⟩ := List.mem_filterMap.mp h
  exact (lookupLastBy_mem hlk).1

lemma take_of_map_id_eq :
    ∀ (M L : List ProfileRow) (t : List String),
      L.map (fun r => r.id) = M.map (fun r => r.id) ++ t →
      (∀ r ∈ L, ∀ w ∈ M, r.id = w.id → r = w) →
      L.take M.length = M := by
  intro M
  induction M with
  | nil => intro L t _ _; simp
  | cons b M ih =>
    intro L t hmap hinj
    cases L with
    | nil => simp at hmap
    | cons a L2 =>
      rw [List.map_cons, List.map_cons, List.cons_append] at hmap
      injection hmap with h1 h2
      have hab : a = b := hinj a (List.mem_cons_self a L2) b (List.mem_cons_self b M) h1
      rw [List.length_cons, List.take_succ_cons, hab,
        ih L2 t h2 (fun r hr w hw h =>
          hinj r (List.mem_cons_of_mem a hr) w (List.mem_cons_of_mem b hw) h)]

/-- The JavaScript object merge keeps the username fetch's rows as an
unchanged prefix: the first |l₁| entries of the de-duplicated concatenation
are exactly l₁, provided l₁'s ids are unique and equal ids mean equal rows
across the concatenation. -/
lemma dedupJS_append_take (l₁ l₂ : List ProfileRow)
    (h₁ : (l₁.map (fun r => r.id)).Nodup)
    (hinj : ∀ r ∈ l₁ ++ l₂, ∀ w ∈ l₁ ++ l₂, r.id = w.id → r = w) :
    (dedupJS (l₁ ++ l₂)).take l₁.length = l₁ := by
  obtain ⟨t, ht, _⟩ := uniq_append_nodup_left (l₁.map (fun r => r.id))
    (l₂.map (fun r => r.id)) h₁
  have hmap : (dedupJS (l₁ ++ l₂)).map (fun r => r.id)
      = l₁.map (fun r => r.id) ++ t := by
    rw [dedupJS_map_id, List.map_append]
    exact ht
  exact take_of_map_id_eq l₁ (dedupJS (l₁ ++ l₂)) t hmap
    (fun r hr w hw h => hinj r (dedupJS_subset hr) w (List.mem_append_left l₂ hw) h)

/-- C2 (amended): profiles.search always issues exactly the two partial-
match fetches, each capped at the clamped limit; with unique profile ids
the result is duplicate-free (each id occurring exactly once) and
truncated to the limit; and a profile matching both predicates that
appears in the result at all is ranked at or before every
display-name-only match.  (As stated the claim also promised such a
profile always appears; truncation can drop it, see the counterexample.) -/
theorem c2_profiles_search_amended (s : Store) (q : String) (limit : Option JsNum)
    (hN : (s.profiles.map (fun r => r.id)).Nodup) :
    ((profilesSearchT s q limit).2
        = [Fetch.profilesLikeUsername q (limOf limit),
           Fetch.profilesLikeDisplay q (limOf limit)])
    ∧ ((profilesSearchRows s q limit).map (fun r => r.id)).Nodup
    ∧ (profilesSearchRows s q limit).length ≤ limOf limit
    ∧ (∀ X ∈ profilesSearchRows s q limit,
        (profilesSearchRows s q limit).countP (fun r => r.id = X.id) = 1)
    ∧ (∀ X ∈ s.profiles, likeContains q X.username = true →
        likeContains q X.display_name = true →
        X ∈ profilesSearchRows s q limit →
        ∀ Y ∈ profilesSearchRows s q limit, likeContains q Y.username = false →
          (profilesSearchRows s q limit).indexOf X
            ≤ (profilesSearchRows s q limit).indexOf Y) := by
  have hRdef : profilesSearchRows s q limit
      = (dedupJS (profilesSearchByU s q (limOf limit)
          ++ profilesSearchByD s q (limOf limit))).take (limOf limit) := rfl
  have hUsub : (profilesSearchByU s q (limOf limit)).Sublist s.profiles :=
    (List.take_sublist _ _).trans (List.filter_sublist _)
  have hDsub : (profilesSearchByD s q (limOf limit)).Sublist s.profiles :=
    (List.take_sublist _ _).trans (List.filter_sublist _)
  have hNU : ((profilesSearchByU s q (limOf limit)).map (fun r => r.id)).Nodup :=
    (hUsub.map (fun r => r.id)).nodup hN
  have hinj : ∀ r ∈ profilesSearchByU s q (limOf limit)
        ++ profilesSearchByD s q (limOf limit),
      ∀ w ∈ profilesSearchByU s q (limOf limit)
        ++ profilesSearchByD s q (limOf limit),
      r.id = w.id → r = w := by
    intro r hr w hw h
    have hr2 : r ∈ s.profiles :=
      (List.mem_append.mp hr).elim (fun h2 => hUsub.subset h2)
        (fun h2 => hDsub.subset h2)
    have hw2 : w ∈ s.profiles :=
      (List.mem_append.mp hw).elim (fun h2 => hUsub.subset h2)
        (fun h2 => hDsub.subset h2)
    exact List.inj_on_of_nodup_map hN hr2 hw2 h
  have hprefix : (dedupJS (profilesSearchByU s q (limOf limit)
        ++ profilesSearchByD s q (limOf limit))).take
          (profilesSearchByU s q (limOf limit)).length
      = profilesSearchByU s q (limOf limit) :=
    dedupJS_append_take _ _ hNU hinj
  have hblen : (profilesSearchByU s q (limOf limit)).length ≤ limOf limit := by
    unfold profilesSearchByU
    rw [List.length_take]
    exact min_le_left _ _
  have hRtake : (profilesSearchRows s q limit).take
      (profilesSearchByU s q (limOf limit)).length
      = profilesSearchByU s q (limOf limit) := by
    rw [hRdef, List.take_take, min_eq_left hblen, hprefix]
  have hRdecomp : profilesSearchRows s q limit
      = profilesSearchByU s q (limOf limit)
        ++ (profilesSearchRows s q limit).drop
            (profilesSearchByU s q (limOf limit)).length := by
    have h := List.take_append_drop (profilesSearchByU s q (limOf limit)).length
      (profilesSearchRows s q limit)
    rw [hRtake] at h
    exact h.symm
  have hNodupR : ((profilesSearchRows s q limit).map (fun r => r.id)).Nodup := by
    rw [hRdef, List.map_take]
    refine (List.take_sublist _ _).nodup ?_
    rw [dedupJS_map_id]
    exact nodup_uniq _
  refine ⟨?_, hNodupR, ?_, ?_, ?_⟩
  · cases hpf : s.profilesFail <;> simp [profilesSearchT, hpf]
  · rw [hRdef, List.length_take]
    exact min_le_left _ _
  · intro X hX
    obtain ⟨l1, l2, hsplit⟩ := List.append_of_mem hX
    rw [hsplit]
    rw [hsplit, List.map_append, List.map_cons] at hNodupR
    have h3 := List.nodup_middle.mp hNodupR
    obtain ⟨hnotin, _⟩ := List.nodup_cons.mp h3
    have hz1 : l1.countP (fun r => r.id = X.id) = 0 := by
      refine List.countP_eq_zero.mpr ?_
      intro y hy
      simp only [decide_eq_true_eq]
      intro h
      exact hnotin (List.mem_append_left _
        (List.mem_map.mpr ⟨y, hy, h⟩))
    have hz2 : l2.countP (fun r => r.id = X.id) = 0 := by
      refine List.countP_eq_zero.mpr ?_
      intro y hy
      simp only [decide_eq_true_eq]
      intro h
      exact hnotin (List.mem_append_right _
        (List.mem_map.mpr ⟨y, hy, h⟩))
    rw [List.countP_append, List.countP_cons, hz1, hz2]
    simp
  · intro X hXp hXu hXd hXR Y hYR hYu
    have hXbyU : X ∈ profilesSearchByU s q (limOf limit) := by
      by_cases hlen : (s.profiles.filter
          (fun r => likeContains q r.username)).length ≤ limOf limit
      · unfold profilesSearchByU
        rw [List.take_of_length_le hlen]
        exact List.mem_filter.mpr ⟨hXp, hXu⟩
      · have hfull : (profilesSearchByU s q (limOf limit)).length = limOf limit := by
          unfold profilesSearchByU
          rw [List.length_take]
          exact min_eq_left (le_of_lt (not_le.mp hlen))
        have hReq : profilesSearchRows s q limit
            = profilesSearchByU s q (limOf limit) := by
          have h5 := hprefix
          rw [hfull] at h5
          rw [hRdef]
          exact h5
        rw [hReq] at hXR
        exact hXR
    have hYnot : Y ∉ profilesSearchByU s q (limOf limit) := by
      intro hY
      have h2 := (List.mem_filter.mp ((List.take_sublist _ _).subset hY)).2
      rw [hYu] at h2
      exact absurd h2 (by decide)
    rw [hRdecomp, List.indexOf_append_of_mem hXbyU,
      List.indexOf_append_of_not_mem hYnot]
    exact le_trans (le_of_lt (List.indexOf_lt_length.mpr hXbyU))
      (Nat.le_add_right _ _)

/-- C2 counterexample: in a store where pA matches the query on username
only and pX matches on both username and display name, with limit 1 the
username fetch (capped at 1) returns only pA, the display fetch returns
pX, and the truncation to 1 drops pX entirely - so a profile matching
both predicates appears zero times, not exactly once as claimed. -/
theorem c2_counterexample :
    pX ∈ storeC2.profiles
    ∧ likeContains "a" pX.username = true
    ∧ likeContains "a" pX.display_name = true
    ∧ (profilesSearchRows storeC2 "a" (some (JsNum.fin 1))).countP
        (fun r => r.id = pX.id) = 0 :=
  ⟨by decide, by decide, by decide, by decide⟩

/-- C2 witness: the amended merge contract applied to the counterexample
store at the default limit, where pX does fit and occurs exactly once. -/
theorem c2_profiles_search_amended_witness :
    (storeC2.profiles.map (fun r => r.id)).Nodup
    ∧ ((profilesSearchRows storeC2 "a" none).map (fun r => r.id)).Nodup
    ∧ (pX ∈ profilesSearchRows storeC2 "a" none
        ∧ (profilesSearchRows storeC2 "a" none).countP
            (fun r => r.id = pX.id) = 1) :=
  ⟨by decide, (c2_profiles_search_amended storeC2 "a" none (by decide)).2.1,
    ⟨by decide,
      (c2_profiles_search_amended storeC2 "a" none (by decide)).2.2.2.1 pX
        (by decide)⟩⟩

end Gourmeet
